import Mathlib

/-!
# Verification of `my-vec` (src/lib.rs)

Shallow embedding of the `RawVec` / `MyVec` / `RawValIter` / `Drain` /
`IntoIter` implementation.

Modelling conventions:
* Machine integers (`usize`) are `Nat`; we target a 64-bit platform, so
  `usize::MAX = !0 = 2^64 - 1` and `isize::MAX = 2^63 - 1`.
* The element type's `size_of::<T>()` is threaded as an explicit `sz : Nat`
  parameter (`sz = 0` models a zero-size type).
* Memory is modelled at element granularity: a `MyVec` carries the list of
  its `len` initialized slots (`data`), so `len` is `data.length`; slots
  beyond `len` are uninitialized and never read by the code, so they are
  not tracked.  `ptr::write` at slot `len` is `data ++ [e]`, `ptr::copy`
  shifts are `take`/`drop` rearrangements, `ptr::read` at slot `i` is
  list lookup.
* Pointers into a range are modelled as element offsets from the base
  address; for zero-size types the code does the "synthetic address"
  arithmetic `addr + 1` per step, which is the same offset arithmetic.
* A Rust panic / assertion failure / fatal allocation error is `none`;
  `pop`'s non-fatal `Option<T>` result stays a value of type `Option`.
* Allocator calls are events of type `AllocReq`, recording the byte sizes
  the code passes to `alloc` / `realloc`.
-/

set_option autoImplicit false

universe u

variable {α : Type u}

/-- Value of `usize::MAX` on a 64-bit platform: the `!0` written in `RawVec::new`. -/
def usizeMax : Nat := 2 ^ 64 - 1

/-- Value of `isize::MAX` on a 64-bit platform, the bound checked in `RawVec::grow`. -/
def isizeMax : Nat := 2 ^ 63 - 1

/-- A request issued to the global byte allocator.  `alloc bytes` is a fresh
allocation of `bytes` bytes; `realloc oldBytes newBytes` resizes an existing
allocation of `oldBytes` bytes to `newBytes` bytes (preserving the first
`min oldBytes newBytes` bytes). -/
inductive AllocReq : Type where
  | alloc (bytes : Nat)
  | realloc (oldBytes newBytes : Nat)
  deriving DecidableEq, Repr

/-- Embeds `RawVec<T>`: the allocation-owning handle.  The pointer itself is not
tracked (memory contents live in `MyVec.data`); only the capacity is. -/
structure RawVec : Type where
  cap : Nat
  deriving DecidableEq, Repr

/-- Embeds `RawVec::new`: capacity `!0` for a zero-size element type, else `0`.
No allocation is performed. -/
def RawVec.new (sz : Nat) : RawVec :=
  ⟨if sz = 0 then usizeMax else 0⟩

/-- Embeds `RawVec::grow`, for element size `sz`.  Returns `none` on a panic
(zero-size type, oversized layout) and otherwise the grown handle together
with the allocation request the code issues.  Note the code passes the
element count `new_cap` — not `new_layout.size()` — as `realloc`'s byte
size argument. -/
def RawVec.grow (sz : Nat) (r : RawVec) : Option (RawVec × AllocReq) :=
  if sz = 0 then none          -- assert!(size_of::<T>() != 0, "capacity overflow")
  else
    let newCap : Nat := if r.cap = 0 then 1 else r.cap * 2
    if newCap * sz ≤ isizeMax then  -- assert!(new_layout.size() <= isize::MAX)
      if r.cap = 0 then
        some (⟨newCap⟩, AllocReq.alloc (newCap * sz))
      else
        -- alloc::realloc(old_ptr, old_layout, new_cap): new size is `new_cap` BYTES
        some (⟨newCap⟩, AllocReq.realloc (r.cap * sz) newCap)
    else none

/-- Modelled from the spec: the request `grow` is specified to make
("requests a fresh allocation if `capacity == 0`, otherwise ... an
in-place-or-relocating resize of the existing allocation to `new_capacity`
elements", with `new_capacity = max(1, capacity * 2)`), expressed in bytes
for element size `sz`. -/
def RawVec.growSpecReq (sz : Nat) (r : RawVec) : AllocReq :=
  let newCap : Nat := max 1 (r.cap * 2)
  if r.cap = 0 then AllocReq.alloc (newCap * sz)
  else AllocReq.realloc (r.cap * sz) (newCap * sz)

/-- Embeds `MyVec<T>`: an owned `RawVec` plus the initialized elements.  The
source's `len` field is `data.length`; `data` lists the contents of the
first `len` slots of the backing buffer. -/
structure MyVec (α : Type u) : Type u where
  buf : RawVec
  data : List α
  deriving DecidableEq, Repr

/-- Embeds `MyVec::new`. -/
def MyVec.new (sz : Nat) : MyVec α :=
  ⟨RawVec.new sz, []⟩

/-- Embeds `MyVec::cap`. -/
def MyVec.cap (v : MyVec α) : Nat := v.buf.cap

/-- Embeds `MyVec::len` (via `Deref` to a slice of the `len` initialized slots). -/
def MyVec.length (v : MyVec α) : Nat := v.data.length

/-- Embeds `MyVec::push`: grow when `len == cap`, write at slot `len`, bump `len`.
`none` is a panic inside `grow`; otherwise the new vector together with the
allocation request made, if any. -/
def MyVec.push (sz : Nat) (v : MyVec α) (e : α) : Option (MyVec α × Option AllocReq) :=
  if v.data.length = v.buf.cap then
    match RawVec.grow sz v.buf with
    | none => none
    | some (r, req) => some (⟨r, v.data ++ [e]⟩, some req)
  else
    some (⟨v.buf, v.data ++ [e]⟩, none)

/-- Embeds `MyVec::pop`: decrement `len` and read the slot at the new `len`
(the last initialized element), or return `None` on an empty vector. -/
def MyVec.pop (v : MyVec α) : Option α × MyVec α :=
  if v.data.length = 0 then (none, v)
  else (v.data.getLast?, ⟨v.buf, v.data.dropLast⟩)

/-- Embeds `MyVec::insert`: assert `idx <= len`, grow when full, shift slots
`[idx, len)` up one by `ptr::copy`, write `e` at `idx`, bump `len`.
`none` is the assertion failure or a panic inside `grow`. -/
def MyVec.insert (sz : Nat) (v : MyVec α) (idx : Nat) (e : α) : Option (MyVec α) :=
  if idx ≤ v.data.length then
    let grown : Option RawVec :=
      if v.data.length = v.buf.cap then (RawVec.grow sz v.buf).map Prod.fst
      else some v.buf
    match grown with
    | none => none
    | some r => some ⟨r, v.data.take idx ++ [e] ++ v.data.drop idx⟩
  else none

/-- Embeds `MyVec::remove`: assert `idx < len`, read out slot `idx`, shift slots
`[idx+1, len)` down one, decrement `len`.  `none` is the assertion
failure. -/
def MyVec.remove (v : MyVec α) (idx : Nat) : Option (α × MyVec α) :=
  if h : idx < v.data.length then
    some (v.data.get ⟨idx, h⟩, ⟨v.buf, v.data.take idx ++ v.data.drop (idx + 1)⟩)
  else none

/-- Embeds `Deref for MyVec`: `from_raw_parts(ptr, len)`, the slice of the `len`
initialized slots. -/
def MyVec.deref (v : MyVec α) : List α := v.data

/-- Indexed read through the `Deref` slice; `none` is the slice's fatal
index-out-of-bounds panic. -/
def MyVec.index (v : MyVec α) (i : Nat) : Option α :=
  (MyVec.deref v)[i]?

/-- Indexed write through the `DerefMut` slice; `none` is the slice's
fatal index-out-of-bounds panic. -/
def MyVec.indexSet (v : MyVec α) (i : Nat) (e : α) : Option (MyVec α) :=
  if i < (MyVec.deref v).length then some ⟨v.buf, (MyVec.deref v).set i e⟩
  else none

/-- Embeds `RawValIter<T>`: the raw two-pointer cursor, with `start`/`end`
represented as element offsets from the range's base address (for zero-size
types the code increments a synthetic integer address by 1 per step, which
is this same offset arithmetic). -/
structure RawValIter (α : Type u) : Type u where
  elems : List α
  start : Nat
  stop : Nat
  deriving DecidableEq, Repr

/-- Embeds `RawValIter::new` over a slice: `start` is the base (offset 0); `end`
is `start + len` for a zero-size type, `start` for an empty slice, and
`start.add(len)` otherwise. -/
def RawValIter.new (sz : Nat) (slice : List α) : RawValIter α :=
  { elems := slice
    start := 0
    stop :=
      if sz = 0 then 0 + slice.length
      else if slice.length = 0 then 0
      else 0 + slice.length }

/-- Embeds `RawValIter::next`: exhausted when `start == end`; otherwise
`ptr::read` at `start` and advance `start` by one (element or synthetic)
unit.  The read of slot `start` is `elems.getD start default`. -/
def RawValIter.next [Inhabited α] (it : RawValIter α) : Option α × RawValIter α :=
  if it.start = it.stop then (none, it)
  else (some (it.elems.getD it.start default), { it with start := it.start + 1 })

/-- Embeds `RawValIter::next_back`: exhausted when `start == end`; otherwise
retreat `end` by one unit and `ptr::read` the slot now at `end`. -/
def RawValIter.nextBack [Inhabited α] (it : RawValIter α) : Option α × RawValIter α :=
  if it.start = it.stop then (none, it)
  else (some (it.elems.getD (it.stop - 1) default), { it with stop := it.stop - 1 })

/-- A direction of consumption: a call to `next` (`fwd`) or to
`next_back` (`bwd`). -/
inductive Dir : Type where
  | fwd
  | bwd
  deriving DecidableEq, Repr

/-- Run an arbitrary interleaving of `next` / `next_back` calls on a
cursor.  Returns the values yielded forward (in yield order), the values
yielded backward (in yield order), and the final cursor state. -/
def runCalls [Inhabited α] : List Dir → RawValIter α → List α × List α × RawValIter α
  | [], it => ([], [], it)
  | Dir.fwd :: ds, it =>
    let s := RawValIter.next it
    let r := runCalls ds s.2
    (s.1.toList ++ r.1, r.2.1, r.2.2)
  | Dir.bwd :: ds, it =>
    let s := RawValIter.nextBack it
    let r := runCalls ds s.2
    (r.1, s.1.toList ++ r.2.1, r.2.2)

/-- Drive a cursor to exhaustion with forward calls, with enough fuel;
models the `for _ in &mut *self {}` loops in the `Drop` impls. -/
def RawValIter.exhaustAux [Inhabited α] : Nat → RawValIter α → List α
  | 0, _ => []
  | n + 1, it =>
    match RawValIter.next it with
    | (none, _) => []
    | (some a, it') => a :: RawValIter.exhaustAux n it'

/-- The elements a `for` loop over the cursor would still yield (and hence
drop) from the current state. -/
def RawValIter.exhaustFwd [Inhabited α] (it : RawValIter α) : List α :=
  RawValIter.exhaustAux (it.stop - it.start) it

/-- An observable event of a destructor: dropping one remaining element,
or releasing the backing allocation of `cap` element slots. -/
inductive DropEvent (α : Type u) : Type u where
  | elem (a : α)
  | release (cap : Nat)
  deriving DecidableEq, Repr

/-- Embeds `IntoIter<T>`: the consuming iterator, owning the moved-out `RawVec`
(`_buf`) and a cursor over its initialized span. -/
structure IntoIter (α : Type u) : Type u where
  buf : RawVec
  iter : RawValIter α
  deriving DecidableEq, Repr

/-- Embeds `MyVec::into_iter`: move the buffer out (destructor suppressed by
`mem::forget`) and build a cursor over the initialized span. -/
def MyVec.intoIter (sz : Nat) (v : MyVec α) : IntoIter α :=
  ⟨v.buf, RawValIter.new sz v.data⟩

/-- Embeds `IntoIter::next`, delegating to the cursor. -/
def IntoIter.next [Inhabited α] (it : IntoIter α) : Option α × IntoIter α :=
  let s := RawValIter.next it.iter
  (s.1, { it with iter := s.2 })

/-- Embeds `IntoIter::next_back`, delegating to the cursor. -/
def IntoIter.nextBack [Inhabited α] (it : IntoIter α) : Option α × IntoIter α :=
  let s := RawValIter.nextBack it.iter
  (s.1, { it with iter := s.2 })

/-- Embeds `Drop for IntoIter`: the `for` loop drops every remaining element,
then the `_buf : RawVec` field's destructor releases the allocation. -/
def IntoIter.dropEvents [Inhabited α] (it : IntoIter α) : List (DropEvent α) :=
  (RawValIter.exhaustFwd it.iter).map DropEvent.elem ++ [DropEvent.release it.buf.cap]

/-- Embeds `Drain<'a, T>`: the draining iterator; it borrows the vector (only a
`PhantomData` in the source) and holds the cursor. -/
structure Drain (α : Type u) : Type u where
  iter : RawValIter α
  deriving DecidableEq, Repr

/-- Embeds `MyVec::drain`: build the cursor over the initialized span, set
`len = 0`, hand out the `Drain`; buffer and capacity are untouched. -/
def MyVec.drain (sz : Nat) (v : MyVec α) : Drain α × MyVec α :=
  (⟨RawValIter.new sz v.data⟩, ⟨v.buf, []⟩)

/-- Embeds `Drain::next`, delegating to the cursor. -/
def Drain.next [Inhabited α] (d : Drain α) : Option α × Drain α :=
  let s := RawValIter.next d.iter
  (s.1, ⟨s.2⟩)

/-- Embeds `Drain::next_back`, delegating to the cursor. -/
def Drain.nextBack [Inhabited α] (d : Drain α) : Option α × Drain α :=
  let s := RawValIter.nextBack d.iter
  (s.1, ⟨s.2⟩)

/-- Embeds `Drop for Drain`: the `for` loop drops every remaining element; no
allocation is released. -/
def Drain.dropEvents [Inhabited α] (d : Drain α) : List (DropEvent α) :=
  (RawValIter.exhaustFwd d.iter).map DropEvent.elem

/-- A sequence of `push` calls, accumulating the allocation requests
made. -/
def MyVec.pushAll (sz : Nat) : List α → MyVec α → Option (MyVec α × List AllocReq)
  | [], v => some (v, [])
  | e :: es, v =>
    match MyVec.push sz v e with
    | none => none
    | some (v', req) =>
      match MyVec.pushAll sz es v' with
      | none => none
      | some (v'', reqs) => some (v'', req.toList ++ reqs)

/-- Runs `n` successive `pop` calls, collecting the returned values in call
order; stops early if a `pop` reports empty. -/
def MyVec.popSeq : Nat → MyVec α → List α × MyVec α
  | 0, v => ([], v)
  | n + 1, v =>
    match MyVec.pop v with
    | (none, v') => ([], v')
    | (some a, v') =>
      let r := MyVec.popSeq n v'
      (a :: r.1, r.2)

/-- The contiguous sub-range `[a, b)` of a list, by element offset. -/
def listSlice (l : List α) (a b : Nat) : List α :=
  (l.drop a).take (b - a)

/-! ## Helper lemmas about `listSlice` -/

theorem listSlice_self (l : List α) (a : Nat) : listSlice l a a = [] := by
  simp [listSlice]

theorem listSlice_zero (l : List α) (k : Nat) : listSlice l 0 k = l.take k := by
  simp [listSlice]

theorem listSlice_zero_length (l : List α) : listSlice l 0 l.length = l := by
  simp [listSlice]

theorem listSlice_to_length (l : List α) (k : Nat) :
    listSlice l k l.length = l.drop k := by
  rw [listSlice, List.take_of_length_le]
  rw [List.length_drop]

theorem listSlice_cons (l : List α) (d : α) (a b : Nat) (hab : a < b)
    (ha : a < l.length) :
    listSlice l a b = l.getD a d :: listSlice l (a + 1) b := by
  unfold listSlice
  rw [List.drop_eq_getElem_cons ha]
  have hba : b - a = (b - (a + 1)) + 1 := by omega
  rw [hba, List.take_succ_cons, List.getD_eq_getElem l d ha]

theorem listSlice_snoc (l : List α) (d : α) (a b : Nat) (hab : a < b)
    (hb : b ≤ l.length) :
    listSlice l a b = listSlice l a (b - 1) ++ [l.getD (b - 1) d] := by
  unfold listSlice
  have h1 : b - a = (b - 1 - a) + 1 := by omega
  rw [h1, List.take_succ, List.getElem?_drop]
  have h2 : a + (b - 1 - a) = b - 1 := by omega
  have h3 : b - 1 < l.length := by omega
  rw [h2, List.getElem?_eq_getElem h3, List.getD_eq_getElem l d h3]
  rfl

theorem listSlice_append (l : List α) (a m b : Nat) (h1 : a ≤ m) (h2 : m ≤ b) :
    listSlice l a m ++ listSlice l m b = listSlice l a b := by
  unfold listSlice
  have hb : b - a = (m - a) + (b - m) := by omega
  have hm : a + (m - a) = m := by omega
  rw [hb, List.take_add, List.drop_drop, hm]

/-! ## Basic cursor lemmas -/

theorem RawValIter.new_elems (sz : Nat) (l : List α) :
    (RawValIter.new sz l).elems = l := rfl

theorem RawValIter.new_start (sz : Nat) (l : List α) :
    (RawValIter.new sz l).start = 0 := rfl

theorem RawValIter.new_stop (sz : Nat) (l : List α) :
    (RawValIter.new sz l).stop = l.length := by
  unfold RawValIter.new
  split
  · simp
  · split <;> simp_all

theorem RawValIter.next_fst_eq_none_iff [Inhabited α] (it : RawValIter α) :
    (RawValIter.next it).1 = none ↔ it.start = it.stop := by
  unfold RawValIter.next
  split <;> simp_all

theorem RawValIter.nextBack_fst_eq_none_iff [Inhabited α] (it : RawValIter α) :
    (RawValIter.nextBack it).1 = none ↔ it.start = it.stop := by
  unfold RawValIter.nextBack
  split <;> simp_all

theorem RawValIter.next_of_exhausted [Inhabited α] (it : RawValIter α)
    (h : it.start = it.stop) : RawValIter.next it = (none, it) := by
  simp [RawValIter.next, h]

theorem RawValIter.nextBack_of_exhausted [Inhabited α] (it : RawValIter α)
    (h : it.start = it.stop) : RawValIter.nextBack it = (none, it) := by
  simp [RawValIter.nextBack, h]

/-- Invariant of an arbitrary interleaving of `next` / `next_back` calls:
the range only shrinks, the forward yields are exactly the slice consumed
from the front, and the backward yields are exactly the reversed slice
consumed from the back. -/
theorem runCalls_inv [Inhabited α] (ds : List Dir) :
    ∀ (it : RawValIter α), it.start ≤ it.stop → it.stop ≤ it.elems.length →
      (runCalls ds it).2.2.elems = it.elems ∧
      it.start ≤ (runCalls ds it).2.2.start ∧
      (runCalls ds it).2.2.start ≤ (runCalls ds it).2.2.stop ∧
      (runCalls ds it).2.2.stop ≤ it.stop ∧
      (runCalls ds it).1 = listSlice it.elems it.start (runCalls ds it).2.2.start ∧
      (runCalls ds it).2.1 =
        (listSlice it.elems (runCalls ds it).2.2.stop it.stop).reverse := by
  induction ds with
  | nil =>
    intro it h1 h2
    simp [runCalls, listSlice_self, h1]
  | cons d ds ih =>
    intro it h1 h2
    cases d with
    | fwd =>
      by_cases hse : it.start = it.stop
      · have hnext : RawValIter.next it = (none, it) :=
          RawValIter.next_of_exhausted it hse
        simp only [runCalls, hnext, Option.toList_none, List.nil_append]
        exact ih it h1 h2
      · have hlt : it.start < it.stop := lt_of_le_of_ne h1 hse
        have hnext : RawValIter.next it =
            (some (it.elems.getD it.start default),
             ⟨it.elems, it.start + 1, it.stop⟩) := by
          simp [RawValIter.next, hse]
        simp only [runCalls, hnext, Option.toList_some, List.singleton_append]
        obtain ⟨e1, s1, s2, s3, f1, b1⟩ :=
          ih ⟨it.elems, it.start + 1, it.stop⟩ (by simpa using hlt) (by simpa using h2)
        have s1' : it.start + 1 ≤
            (runCalls ds ⟨it.elems, it.start + 1, it.stop⟩).2.2.start := s1
        have f1' : (runCalls ds ⟨it.elems, it.start + 1, it.stop⟩).1 =
            listSlice it.elems (it.start + 1)
              (runCalls ds ⟨it.elems, it.start + 1, it.stop⟩).2.2.start := f1
        refine ⟨e1, by omega, s2, s3, ?_, b1⟩
        rw [f1', listSlice_cons it.elems default it.start _ (by omega) (by omega)]
    | bwd =>
      by_cases hse : it.start = it.stop
      · have hnext : RawValIter.nextBack it = (none, it) :=
          RawValIter.nextBack_of_exhausted it hse
        simp only [runCalls, hnext, Option.toList_none, List.nil_append]
        exact ih it h1 h2
      · have hlt : it.start < it.stop := lt_of_le_of_ne h1 hse
        have hnext : RawValIter.nextBack it =
            (some (it.elems.getD (it.stop - 1) default),
             ⟨it.elems, it.start, it.stop - 1⟩) := by
          simp [RawValIter.nextBack, hse]
        simp only [runCalls, hnext, Option.toList_some, List.singleton_append]
        obtain ⟨e1, s1, s2, s3, f1, b1⟩ :=
          ih ⟨it.elems, it.start, it.stop - 1⟩ (by simpa using (by omega : it.start ≤ it.stop - 1))
            (by simpa using (by omega : it.stop - 1 ≤ it.elems.length))
        have s3' : (runCalls ds ⟨it.elems, it.start, it.stop - 1⟩).2.2.stop ≤
            it.stop - 1 := s3
        have b1' : (runCalls ds ⟨it.elems, it.start, it.stop - 1⟩).2.1 =
            (listSlice it.elems
              (runCalls ds ⟨it.elems, it.start, it.stop - 1⟩).2.2.stop
              (it.stop - 1)).reverse := b1
        refine ⟨e1, s1, s2, by omega, f1, ?_⟩
        rw [b1', listSlice_snoc it.elems default _ it.stop (by omega) h2, List.reverse_concat]

/-- With fuel at least the remaining count, driving the cursor forward
yields exactly the unconsumed sub-range, each element once, in order. -/
theorem exhaustAux_eq_listSlice [Inhabited α] :
    ∀ (n : Nat) (it : RawValIter α), it.stop - it.start ≤ n →
      it.start ≤ it.stop → it.stop ≤ it.elems.length →
      RawValIter.exhaustAux n it = listSlice it.elems it.start it.stop := by
  intro n
  induction n with
  | zero =>
    intro it hf h1 h2
    have hse : it.start = it.stop := by omega
    rw [RawValIter.exhaustAux, hse, listSlice_self]
  | succ n ih =>
    intro it hf h1 h2
    by_cases hse : it.start = it.stop
    · rw [RawValIter.exhaustAux, RawValIter.next_of_exhausted it hse, hse, listSlice_self]
    · have hlt : it.start < it.stop := lt_of_le_of_ne h1 hse
      have hnext : RawValIter.next it =
          (some (it.elems.getD it.start default),
           ⟨it.elems, it.start + 1, it.stop⟩) := by
        simp [RawValIter.next, hse]
      rw [RawValIter.exhaustAux, hnext]
      show it.elems.getD it.start default ::
          RawValIter.exhaustAux n ⟨it.elems, it.start + 1, it.stop⟩ =
          listSlice it.elems it.start it.stop
      rw [ih ⟨it.elems, it.start + 1, it.stop⟩ (by simp; omega) (by simp; omega)
        (by simpa using h2)]
      rw [listSlice_cons it.elems default it.start it.stop hlt (by omega)]

/-- The `for` loop in the `Drop` impls yields (and so drops) exactly the
unconsumed sub-range `[start, stop)`. -/
theorem exhaustFwd_eq_listSlice [Inhabited α] (it : RawValIter α)
    (h1 : it.start ≤ it.stop) (h2 : it.stop ≤ it.elems.length) :
    RawValIter.exhaustFwd it = listSlice it.elems it.start it.stop :=
  exhaustAux_eq_listSlice (it.stop - it.start) it (Nat.le_refl _) h1 h2

/-- Shows `push` appends the element to the initialized prefix whenever it does
not panic. -/
theorem push_data (sz : Nat) (v : MyVec α) (e : α) :
    ∀ v' req, MyVec.push sz v e = some (v', req) → v'.data = v.data ++ [e] := by
  intro v' req h
  unfold MyVec.push at h
  split at h
  · rcases hg : RawVec.grow sz v.buf with _ | ⟨r, rq⟩ <;> rw [hg] at h
    · exact absurd h (by simp)
    · simp only [Option.some.injEq, Prod.mk.injEq] at h
      rw [← h.1]
  · simp only [Option.some.injEq, Prod.mk.injEq] at h
    rw [← h.1]

/-- A successful sequence of pushes appends the pushed values, in push
order, to the initialized prefix. -/
theorem pushAll_data (sz : Nat) :
    ∀ (es : List α) (v : MyVec α) (v' : MyVec α) (reqs : List AllocReq),
      MyVec.pushAll sz es v = some (v', reqs) → v'.data = v.data ++ es := by
  intro es
  induction es with
  | nil =>
    intro v v' reqs h
    simp only [MyVec.pushAll, Option.some.injEq, Prod.mk.injEq] at h
    rw [← h.1]
    simp
  | cons e es ih =>
    intro v v' reqs h
    simp only [MyVec.pushAll] at h
    rcases hp : MyVec.push sz v e with _ | ⟨v₁, req⟩ <;> rw [hp] at h
    · simp at h
    · dsimp only at h
      rcases hq : MyVec.pushAll sz es v₁ with _ | ⟨v₂, reqs₂⟩ <;> rw [hq] at h
      · simp at h
      · simp only [Option.some.injEq, Prod.mk.injEq] at h
        have hd := ih v₁ v₂ reqs₂ hq
        rw [← h.1, hd, push_data sz v e v₁ req hp]
        simp

/-- Popping `n` times from a vector of `n` initialized elements returns
them in strict reverse order and empties the vector, leaving the buffer
untouched. -/
theorem popSeq_reverse (c : RawVec) (l : List α) :
    MyVec.popSeq l.length ⟨c, l⟩ = (l.reverse, (⟨c, []⟩ : MyVec α)) := by
  induction l using List.reverseRecOn with
  | nil => rfl
  | append_singleton l a ih =>
    have hlen : (l ++ [a]).length = l.length + 1 := by simp
    have hpop : MyVec.pop (⟨c, l ++ [a]⟩ : MyVec α) = (some a, ⟨c, l⟩) := by
      rw [MyVec.pop]
      simp [List.getLast?_concat, List.dropLast_concat]
    rw [hlen, MyVec.popSeq, hpop]
    show (a :: (MyVec.popSeq l.length (⟨c, l⟩ : MyVec α)).1,
          (MyVec.popSeq l.length (⟨c, l⟩ : MyVec α)).2) = _
    rw [ih, List.reverse_concat]

/-- Shows `insert` rewrites the initialized prefix as
`take idx ++ [e] ++ drop idx` whenever it does not panic. -/
theorem insert_data (sz : Nat) (v : MyVec α) (idx : Nat) (e : α) :
    ∀ v', MyVec.insert sz v idx e = some v' →
      v'.data = v.data.take idx ++ [e] ++ v.data.drop idx := by
  intro v' h
  unfold MyVec.insert at h
  split at h
  · rcases hg : (if v.data.length = v.buf.cap
        then (RawVec.grow sz v.buf).map Prod.fst else some v.buf) with _ | r <;>
      rw [hg] at h
    · simp at h
    · simp only [Option.some.injEq] at h
      rw [← h]
  · simp at h

/-- Over a fresh cursor, any interleaving splits the underlying list into
the forward-consumed prefix, the untouched middle, and the
backward-consumed suffix. -/
theorem runCalls_new_parts [Inhabited α] (sz : Nat) (l : List α) (ds : List Dir)
    (f b : List α) (it' : RawValIter α)
    (h : runCalls ds (RawValIter.new sz l) = (f, b, it')) :
    f = l.take it'.start ∧ b = (l.drop it'.stop).reverse ∧
    it'.start ≤ it'.stop ∧ it'.stop ≤ l.length := by
  have h1 : (RawValIter.new sz l).start ≤ (RawValIter.new sz l).stop := by
    rw [RawValIter.new_start, RawValIter.new_stop]
    exact Nat.zero_le _
  have h2 : (RawValIter.new sz l).stop ≤ (RawValIter.new sz l).elems.length := by
    rw [RawValIter.new_stop, RawValIter.new_elems]
  obtain ⟨e1, s1, s2, s3, f1, b1⟩ := runCalls_inv ds (RawValIter.new sz l) h1 h2
  rw [h] at s2 s3 f1 b1
  dsimp only at s2 s3 f1 b1
  rw [RawValIter.new_stop] at s3
  rw [RawValIter.new_elems, RawValIter.new_start] at f1
  rw [RawValIter.new_elems, RawValIter.new_stop] at b1
  exact ⟨by rw [f1, listSlice_zero], by rw [b1, listSlice_to_length], s2, s3⟩

/-- Over a fresh cursor, an interleaving that ends exhausted has yielded
every element exactly once: forward yields followed by the reversed
backward yields reconstitute the original list. -/
theorem runCalls_new_complete [Inhabited α] (sz : Nat) (l : List α) (ds : List Dir)
    (f b : List α) (it' : RawValIter α)
    (h : runCalls ds (RawValIter.new sz l) = (f, b, it'))
    (he : it'.start = it'.stop) :
    f ++ b.reverse = l := by
  obtain ⟨f1, b1, s2, s3⟩ := runCalls_new_parts sz l ds f b it' h
  rw [f1, b1, List.reverse_reverse, he, List.take_append_drop]

/-! ## Claim theorems -/

/-- Claim C1 (refuted; code bug).  At element size 4 with capacity 1,
`grow` computes `new_capacity = 2` but passes the element count `2` as
`realloc`'s byte-size argument, so it requests a resize of the existing
4-byte allocation to 2 bytes — not to the 8 bytes that "resizes the
existing allocation to a size of exactly `new_capacity` elements,
preserving the bytes of the first `capacity` elements" requires. -/
theorem C1_grow_realloc_wrong_size :
    RawVec.grow 4 ⟨1⟩ = some (⟨2⟩, AllocReq.realloc 4 2) ∧
    RawVec.growSpecReq 4 ⟨1⟩ = AllocReq.realloc 4 8 ∧
    AllocReq.realloc 4 2 ≠ AllocReq.realloc 4 8 := by
  decide

/-- Claim C2 (confirmed).  After any successful sequence of `n` pushes on
an array created by `new()`, `length()` equals `n`, and the indexed read
at every `i < n` returns the `i`-th pushed value. -/
theorem C2_push_length_order (sz : Nat) (vals : List α) (v : MyVec α)
    (reqs : List AllocReq)
    (h : MyVec.pushAll sz vals (MyVec.new sz) = some (v, reqs)) :
    MyVec.length v = vals.length ∧
    ∀ i (hi : i < vals.length), MyVec.index v i = some (vals.get ⟨i, hi⟩) := by
  have hd : v.data = vals := by
    have hp := pushAll_data sz vals (MyVec.new sz) v reqs h
    simpa [MyVec.new] using hp
  constructor
  · rw [MyVec.length, hd]
  · intro i hi
    rw [MyVec.index, MyVec.deref, hd, List.getElem?_eq_getElem hi,
      List.get_eq_getElem]

theorem C2_push_length_order_witness :
    MyVec.length (⟨⟨4⟩, [10, 20, 30]⟩ : MyVec Int) = 3 ∧
    MyVec.index (⟨⟨4⟩, [10, 20, 30]⟩ : MyVec Int) 1 = some 20 := by
  have h := C2_push_length_order 4 ([10, 20, 30] : List Int) ⟨⟨4⟩, [10, 20, 30]⟩
    [AllocReq.alloc 4, AllocReq.realloc 4 2, AllocReq.realloc 8 4] (by decide)
  exact ⟨h.1, h.2 1 (by decide)⟩

/-- Claim C5 (confirmed).  Popping `n` times after `n` successful pushes
returns the pushed values in strict reverse order, and one further `pop`
on the now-empty array reports the non-fatal no-element result. -/
theorem C5_pop_lifo (sz : Nat) (vals : List α) (v : MyVec α)
    (reqs : List AllocReq)
    (h : MyVec.pushAll sz vals (MyVec.new sz) = some (v, reqs)) :
    ∃ v' : MyVec α,
      MyVec.popSeq vals.length v = (vals.reverse, v') ∧
      MyVec.length v' = 0 ∧
      MyVec.pop v' = (none, v') := by
  obtain ⟨b, d⟩ := v
  have hd : d = vals := by
    have hp := pushAll_data sz vals (MyVec.new sz) ⟨b, d⟩ reqs h
    simpa [MyVec.new] using hp
  subst hd
  exact ⟨⟨b, []⟩, popSeq_reverse b d, rfl, rfl⟩

theorem C5_pop_lifo_witness :
    ∃ v' : MyVec Int,
      MyVec.popSeq 2 (⟨⟨2⟩, [1, 2]⟩ : MyVec Int) = ([2, 1], v') ∧
      MyVec.length v' = 0 ∧
      MyVec.pop v' = (none, v') :=
  C5_pop_lifo 4 [1, 2] ⟨⟨2⟩, [1, 2]⟩ [AllocReq.alloc 4, AllocReq.realloc 4 2]
    (by decide)

/-- Claim C6 (confirmed).  A non-panicking `insert(i, v)` with
`0 ≤ i ≤ n` yields length `n + 1`, puts the new element at index `i`,
shifts every former element at an index `≥ i` up by one, and leaves every
element at an index `< i` unchanged. -/
theorem C6_insert_shift (sz : Nat) (v : MyVec α) (idx : Nat) (e : α)
    (v' : MyVec α) (hle : idx ≤ MyVec.length v)
    (h : MyVec.insert sz v idx e = some v') :
    MyVec.length v' = MyVec.length v + 1 ∧
    MyVec.index v' idx = some e ∧
    (∀ j, j < idx → MyVec.index v' j = MyVec.index v j) ∧
    (∀ j, idx ≤ j → j < MyVec.length v → MyVec.index v' (j + 1) = MyVec.index v j) := by
  have hle' : idx ≤ v.data.length := hle
  have hd := insert_data sz v idx e v' h
  have hlen : (v.data.take idx).length = idx := by
    rw [List.length_take]
    omega
  have hlen2 : (v.data.take idx ++ [e]).length = idx + 1 := by
    simp [hlen]
  refine ⟨?_, ?_, ?_, ?_⟩
  · rw [MyVec.length, MyVec.length, hd]
    simp only [List.length_append, List.length_take, List.length_drop,
      List.length_cons, List.length_nil]
    omega
  · rw [MyVec.index, MyVec.deref, hd, List.getElem?_append, hlen2, if_pos (by omega),
      List.getElem?_append, hlen, if_neg (by omega)]
    simp [hlen]
  · intro j hj
    rw [MyVec.index, MyVec.index, MyVec.deref, MyVec.deref, hd,
      List.getElem?_append, hlen2, if_pos (by omega),
      List.getElem?_append, hlen, if_pos hj, List.getElem?_take]
    rw [if_pos hj]
  · intro j hj1 hj2
    have hj2' : j < v.data.length := hj2
    rw [MyVec.index, MyVec.index, MyVec.deref, MyVec.deref, hd,
      List.getElem?_append_right (by omega : (v.data.take idx ++ [e]).length ≤ j + 1),
      hlen2, List.getElem?_drop]
    congr 1
    omega

theorem C6_insert_shift_witness :
    MyVec.length (⟨⟨4⟩, [1, 9, 2, 3]⟩ : MyVec Int) = 4 ∧
    MyVec.index (⟨⟨4⟩, [1, 9, 2, 3]⟩ : MyVec Int) 1 = some 9 ∧
    MyVec.index (⟨⟨4⟩, [1, 9, 2, 3]⟩ : MyVec Int) 0 =
      MyVec.index (⟨⟨4⟩, [1, 2, 3]⟩ : MyVec Int) 0 ∧
    MyVec.index (⟨⟨4⟩, [1, 9, 2, 3]⟩ : MyVec Int) 2 =
      MyVec.index (⟨⟨4⟩, [1, 2, 3]⟩ : MyVec Int) 1 := by
  have h := C6_insert_shift 4 (⟨⟨4⟩, [1, 2, 3]⟩ : MyVec Int) 1 9 ⟨⟨4⟩, [1, 9, 2, 3]⟩
    (by decide) (by decide)
  exact ⟨h.1, h.2.1, h.2.2.1 0 (by decide), h.2.2.2 1 (by decide) (by decide)⟩

/-- Claim C7 (confirmed).  Indexed read/write at `i ≥ length`, `insert`
at `index > length`, and `remove` at `index ≥ length` all take the fatal
assertion-failure path (modelled `none`), while `pop` on an empty array
alone returns the explicit non-fatal no-element value and leaves the
array untouched. -/
theorem C7_bounds_errors :
    (∀ (v : MyVec α) (i : Nat), MyVec.length v ≤ i → MyVec.index v i = none) ∧
    (∀ (v : MyVec α) (i : Nat) (e : α), MyVec.length v ≤ i →
        MyVec.indexSet v i e = none) ∧
    (∀ (sz : Nat) (v : MyVec α) (idx : Nat) (e : α), MyVec.length v < idx →
        MyVec.insert sz v idx e = none) ∧
    (∀ (v : MyVec α) (idx : Nat), MyVec.length v ≤ idx →
        MyVec.remove v idx = none) ∧
    (∀ v : MyVec α, MyVec.length v = 0 → MyVec.pop v = (none, v)) := by
  refine ⟨?_, ?_, ?_, ?_, ?_⟩
  · intro v i hi
    rw [MyVec.index, MyVec.deref]
    exact List.getElem?_eq_none hi
  · intro v i e hi
    have hi' : v.data.length ≤ i := hi
    rw [MyVec.indexSet, if_neg]
    intro hc
    rw [MyVec.deref] at hc
    omega
  · intro sz v idx e hidx
    have hidx' : v.data.length < idx := hidx
    rw [MyVec.insert, if_neg (by omega)]
  · intro v idx hidx
    have hidx' : v.data.length ≤ idx := hidx
    rw [MyVec.remove, dif_neg (by omega)]
  · intro v hv
    have hv' : v.data.length = 0 := hv
    rw [MyVec.pop, if_pos hv']

theorem C7_bounds_errors_witness :
    MyVec.index (⟨⟨2⟩, [5, 6]⟩ : MyVec Int) 2 = none ∧
    MyVec.indexSet (⟨⟨2⟩, [5, 6]⟩ : MyVec Int) 4 7 = none ∧
    MyVec.insert 4 (⟨⟨2⟩, [5, 6]⟩ : MyVec Int) 3 7 = none ∧
    MyVec.remove (⟨⟨2⟩, [5, 6]⟩ : MyVec Int) 2 = none ∧
    MyVec.pop (⟨⟨2⟩, ([] : List Int)⟩ : MyVec Int) = (none, ⟨⟨2⟩, []⟩) := by
  obtain ⟨h1, h2, h3, h4, h5⟩ := C7_bounds_errors (α := Int)
  exact ⟨h1 _ 2 (by decide), h2 _ 4 7 (by decide), h3 4 _ 3 7 (by decide),
    h4 _ 2 (by decide), h5 _ (by decide)⟩

/-- Claim C3 (confirmed).  Any interleaving of `next` / `next_back`
calls on a fresh cursor over `n` initialized elements yields a prefix
front-to-back and a suffix back-to-front; together with the untouched
middle they are exactly the `n` elements, each once; when the two
directions have met (`start = stop`) the yields partition the whole
range, and the cursor reports exhausted exactly when `start = stop`. -/
theorem C3_interleaved_cursor [Inhabited α] (sz : Nat) (l : List α)
    (ds : List Dir) (f b : List α) (it' : RawValIter α)
    (h : runCalls ds (RawValIter.new sz l) = (f, b, it')) :
    f = l.take it'.start ∧
    b = (l.drop it'.stop).reverse ∧
    it'.start ≤ it'.stop ∧
    f ++ listSlice l it'.start it'.stop ++ b.reverse = l ∧
    (it'.start = it'.stop → f ++ b.reverse = l) ∧
    ((RawValIter.next it').1 = none ↔ it'.start = it'.stop) ∧
    ((RawValIter.nextBack it').1 = none ↔ it'.start = it'.stop) := by
  obtain ⟨f1, b1, s2, s3⟩ := runCalls_new_parts sz l ds f b it' h
  refine ⟨f1, b1, s2, ?_, runCalls_new_complete sz l ds f b it' h,
    RawValIter.next_fst_eq_none_iff it', RawValIter.nextBack_fst_eq_none_iff it'⟩
  rw [f1, b1, List.reverse_reverse, ← listSlice_zero l it'.start,
    listSlice_append l 0 it'.start it'.stop (Nat.zero_le _) s2,
    listSlice_zero, List.take_append_drop]

theorem C3_interleaved_cursor_witness :
    ([1, 2] : List Int) ++ listSlice [1, 2, 3, 4, 5] 2 4 ++ [5].reverse
      = [1, 2, 3, 4, 5] :=
  (C3_interleaved_cursor 4 ([1, 2, 3, 4, 5] : List Int)
    [Dir.fwd, Dir.bwd, Dir.fwd] [1, 2] [5] ⟨[1, 2, 3, 4, 5], 2, 4⟩
    (by decide)).2.2.2.1

/-- Claim C10 (confirmed).  An exhausted cursor (`start = stop`) returns
the no-element result from both `next` and `next_back` without changing
state, and any further sequence of calls in either direction yields
nothing and leaves the cursor unchanged — the iterators built on it are
fused. -/
theorem C10_exhausted_fused [Inhabited α] (it : RawValIter α)
    (h : it.start = it.stop) :
    RawValIter.next it = (none, it) ∧
    RawValIter.nextBack it = (none, it) ∧
    ∀ ds : List Dir, runCalls ds it = ([], [], it) := by
  refine ⟨RawValIter.next_of_exhausted it h,
    RawValIter.nextBack_of_exhausted it h, ?_⟩
  intro ds
  induction ds with
  | nil => rfl
  | cons d ds ih =>
    cases d with
    | fwd => simp [runCalls, RawValIter.next_of_exhausted it h, ih]
    | bwd => simp [runCalls, RawValIter.nextBack_of_exhausted it h, ih]

theorem C10_exhausted_fused_witness :
    RawValIter.next (⟨[1, 2], 1, 1⟩ : RawValIter Int) = (none, ⟨[1, 2], 1, 1⟩) ∧
    runCalls [Dir.fwd, Dir.bwd, Dir.fwd] (⟨[1, 2], 1, 1⟩ : RawValIter Int)
      = ([], [], ⟨[1, 2], 1, 1⟩) :=
  ⟨(C10_exhausted_fused ⟨[1, 2], 1, 1⟩ rfl).1,
   (C10_exhausted_fused ⟨[1, 2], 1, 1⟩ rfl).2.2 [Dir.fwd, Dir.bwd, Dir.fwd]⟩

/-- Claim C4 (confirmed).  `drain()` immediately sets the array's length
to 0, leaves its capacity unchanged and its allocation unreleased (the
drain's destructor emits no release event), keeps the array usable for
further pushes, and its iterator — under any mix of forward and backward
consumption driven to exhaustion — yields exactly the array's former
elements. -/
theorem C4_drain_frame [Inhabited α] (sz : Nat) (v : MyVec α)
    (hv : (sz ≠ 0 ∧ sz ≤ isizeMax) ∨ v.buf.cap ≠ 0) :
    MyVec.length (MyVec.drain sz v).2 = 0 ∧
    MyVec.cap (MyVec.drain sz v).2 = MyVec.cap v ∧
    (∀ e : α, ∃ p, MyVec.push sz (MyVec.drain sz v).2 e = some p) ∧
    (∀ c : Nat, DropEvent.release c ∉ Drain.dropEvents (MyVec.drain sz v).1) ∧
    (∀ (ds : List Dir) (f b : List α) (it' : RawValIter α),
        runCalls ds (MyVec.drain sz v).1.iter = (f, b, it') →
        it'.start = it'.stop → f ++ b.reverse = v.data) := by
  refine ⟨rfl, rfl, ?_, ?_, ?_⟩
  · intro e
    by_cases hc : v.buf.cap = 0
    · obtain ⟨hsz, hszle⟩ := hv.resolve_right (by simpa using hc)
      refine ⟨(⟨⟨1⟩, [e]⟩, some (AllocReq.alloc (1 * sz))), ?_⟩
      rw [MyVec.drain]
      rw [MyVec.push]
      rw [if_pos (by simpa using hc.symm)]
      rw [RawVec.grow]
      rw [if_neg hsz]
      simp only [hc, if_pos rfl]
      rw [if_pos (by simpa using hszle)]
      simp
    · refine ⟨(⟨v.buf, [e]⟩, none), ?_⟩
      rw [MyVec.drain, MyVec.push]
      rw [if_neg (by simpa using fun hc' => hc hc'.symm)]
      rfl
  · intro c
    rw [Drain.dropEvents]
    simp
  · intro ds f b it' h he
    exact runCalls_new_complete sz v.data ds f b it' h he

theorem C4_drain_frame_witness :
    MyVec.length (MyVec.drain 4 (⟨⟨4⟩, [1, 2, 3]⟩ : MyVec Int)).2 = 0 ∧
    MyVec.cap (MyVec.drain 4 (⟨⟨4⟩, [1, 2, 3]⟩ : MyVec Int)).2
      = MyVec.cap (⟨⟨4⟩, [1, 2, 3]⟩ : MyVec Int) ∧
    (∃ p, MyVec.push 4 (MyVec.drain 4 (⟨⟨4⟩, [1, 2, 3]⟩ : MyVec Int)).2 9 = some p) ∧
    DropEvent.release 4 ∉
      Drain.dropEvents (MyVec.drain 4 (⟨⟨4⟩, [1, 2, 3]⟩ : MyVec Int)).1 ∧
    ([1] : List Int) ++ [3, 2].reverse = [1, 2, 3] := by
  have h := C4_drain_frame 4 (⟨⟨4⟩, [1, 2, 3]⟩ : MyVec Int)
    (Or.inl ⟨by decide, by decide⟩)
  exact ⟨h.1, h.2.1, h.2.2.1 9, h.2.2.2.1 4,
    h.2.2.2.2 [Dir.fwd, Dir.bwd, Dir.bwd, Dir.fwd] [1] [3, 2]
      ⟨[1, 2, 3], 1, 1⟩ (by decide) rfl⟩

/-- Claim C8 (confirmed).  For a zero-size element type the capacity is
the maximum representable count from construction on; pushing 5 unit
values succeeds with no allocation request ever issued (and capacity
unchanged), and draining yields exactly 5 unit values under any mixed
forward/backward consumption driven to exhaustion. -/
theorem C8_zst_behavior :
    MyVec.cap (MyVec.new 0 : MyVec Unit) = usizeMax ∧
    MyVec.pushAll 0 [(), (), (), (), ()] (MyVec.new 0 : MyVec Unit)
      = some (⟨⟨usizeMax⟩, [(), (), (), (), ()]⟩, []) ∧
    (∀ (ds : List Dir) (f b : List Unit) (it' : RawValIter Unit),
        runCalls ds
            (MyVec.drain 0 (⟨⟨usizeMax⟩, [(), (), (), (), ()]⟩ : MyVec Unit)).1.iter
          = (f, b, it') →
        it'.start = it'.stop →
        f ++ b.reverse = [(), (), (), (), ()] ∧ f.length + b.length = 5) := by
  refine ⟨rfl, by decide, ?_⟩
  intro ds f b it' h he
  have hc := runCalls_new_complete 0 [(), (), (), (), ()] ds f b it' h he
  refine ⟨hc, ?_⟩
  have hl := congrArg List.length hc
  simpa using hl

theorem C8_zst_behavior_witness :
    ([(), (), ()] : List Unit) ++ [(), ()].reverse = [(), (), (), (), ()] ∧
    ([(), (), ()] : List Unit).length + [(), ()].length = 5 :=
  C8_zst_behavior.2.2 [Dir.fwd, Dir.bwd, Dir.fwd, Dir.fwd, Dir.bwd]
    [(), (), ()] [(), ()] ⟨[(), (), (), (), ()], 3, 3⟩ (by decide) rfl

/-- Claim C9 (confirmed).  Dropping a partially consumed consuming or
draining iterator runs the destructor of every remaining unconsumed
element exactly once — the drop events are precisely the unconsumed
sub-range, in order, with no repetition — and for the consuming iterator
the owned storage's allocation release comes only after that
exhaustion. -/
theorem C9_abandoned_iter_drops [Inhabited α] :
    (∀ it : IntoIter α, it.iter.start ≤ it.iter.stop →
        it.iter.stop ≤ it.iter.elems.length →
        IntoIter.dropEvents it =
          (listSlice it.iter.elems it.iter.start it.iter.stop).map DropEvent.elem
            ++ [DropEvent.release it.buf.cap]) ∧
    (∀ d : Drain α, d.iter.start ≤ d.iter.stop →
        d.iter.stop ≤ d.iter.elems.length →
        Drain.dropEvents d =
          (listSlice d.iter.elems d.iter.start d.iter.stop).map DropEvent.elem) := by
  constructor
  · intro it h1 h2
    rw [IntoIter.dropEvents, exhaustFwd_eq_listSlice it.iter h1 h2]
  · intro d h1 h2
    rw [Drain.dropEvents, exhaustFwd_eq_listSlice d.iter h1 h2]

theorem C9_abandoned_iter_drops_witness :
    IntoIter.dropEvents (⟨⟨8⟩, ⟨[1, 2, 3, 4, 5], 2, 4⟩⟩ : IntoIter Int) =
      [DropEvent.elem 3, DropEvent.elem 4, DropEvent.release 8] ∧
    Drain.dropEvents (⟨⟨[1, 2, 3, 4, 5], 2, 4⟩⟩ : Drain Int) =
      [DropEvent.elem 3, DropEvent.elem 4] := by
  obtain ⟨h1, h2⟩ := C9_abandoned_iter_drops (α := Int)
  exact ⟨(h1 ⟨⟨8⟩, ⟨[1, 2, 3, 4, 5], 2, 4⟩⟩ (by decide) (by decide)).trans (by decide),
    (h2 ⟨⟨[1, 2, 3, 4, 5], 2, 4⟩⟩ (by decide) (by decide)).trans (by decide)⟩
